import Mathlib

/-!
Shallow embedding of `jsonize/utils/json.py` (eurocontrol-swim/jsonize).

Python values become the inductive `PyVal`; a `JSONPath` keeps both its raw
string and its parsed structure, exactly as the Python class keeps
`raw_json_path` and `json_path_structure`.  Python exceptions become explicit
`Except` results; the exception classes that matter to the code
(KeyError/TypeError/IndexError with or without a path argument, ValueError)
become constructors of `PyExc`.  The parser built from pyparsing in
`JSONPath._parse_slices` is embedded as a recursive-descent matcher with the
same backtracking behaviour, including the behaviour of
`parseString` without `parseAll=True`: a bracket expression that fails to
match simply ends the match and the remaining text is silently ignored.
pyparsing skips whitespace between tokens; the embedding does not model that,
and no statement below involves whitespace inside a bracket expression.
The recursion of `write_item_in_path` is not structurally terminating (and in
fact does not terminate on some inputs), so it takes an explicit fuel
argument; `none` means the recursion was still running when fuel ran out.
-/

/-- Decimal digit characters, as produced by Python `str` of an integer. -/
def digitChar : Nat → Char
  | 0 => '0' | 1 => '1' | 2 => '2' | 3 => '3' | 4 => '4'
  | 5 => '5' | 6 => '6' | 7 => '7' | 8 => '8' | _ => '9'

/-- Numeric value of a decimal digit character. -/
def digitVal (c : Char) : Nat := c.toNat - 48

/-- Fuelled decimal rendering of a natural number, most significant digit first. -/
def natCharsGo : Nat → Nat → List Char
  | 0, _ => []
  | f + 1, n => if n < 10 then [digitChar n] else natCharsGo f (n / 10) ++ [digitChar (n % 10)]

/-- Decimal rendering of a natural number (Python `str(n)` for `n >= 0`). -/
def natChars (n : Nat) : List Char := natCharsGo (n + 1) n

/-- Decimal rendering of an integer (Python `str(i)` / f-string interpolation). -/
def intChars (i : Int) : List Char :=
  if i < 0 then '-' :: natChars i.natAbs else natChars i.toNat

/-- Value of a list of decimal digits (Python `int` of a digit string). -/
def digitsToNat (ds : List Char) : Nat := ds.foldl (fun a c => 10 * a + digitVal c) 0

/-- One element of `JSONPath.json_path_structure`: the Python code stores
either a string (named key, or the anchor itself), an `int` (index access), or
a `slice` object. -/
inductive Seg where
  | key (k : String)
  | idx (i : Int)
  | slc (start stop step : Option Int)
  deriving DecidableEq, Repr

/-- Python truthiness of an int-or-None, as used by `element.start or ''` and
`bool(start)` in `JSONPath.string_representation` and by
`if not (stop or step)` in `JSONPath._parse_slices`. -/
def truthyOpt : Option Int → Bool
  | some v => v != 0
  | none => false

/-- Parses `Optional('-') + Word(nums)`: an optional minus sign followed by a
maximal nonempty run of decimal digits.  Returns `none` (consuming nothing) if
no digits follow, mirroring pyparsing backtracking of the whole expression. -/
def parseSignedInt (cs : List Char) : Option (Int × List Char) :=
  let sb : Bool × List Char :=
    match cs with
    | c :: rest => if c = '-' then (true, rest) else (false, cs)
    | [] => (false, cs)
  let ds := sb.2.takeWhile Char.isDigit
  if ds.isEmpty then none
  else some ((if sb.1 then -(Int.ofNat (digitsToNat ds)) else Int.ofNat (digitsToNat ds)),
             sb.2.dropWhile Char.isDigit)

/-- Parses the optional `':' stop (':' step)?` part of a bracket expression.
The colon and the stop value stand inside one pyparsing `Optional`, so if the
colon is not followed by a parseable signed integer the whole part fails and
consumes nothing; the step part behaves the same way for the second colon. -/
def parseColonPart (cs : List Char) : Option (Int × Option Int) × List Char :=
  match cs with
  | ':' :: r =>
    match parseSignedInt r with
    | some (stopV, r1) =>
      match r1 with
      | ':' :: rr =>
        match parseSignedInt rr with
        | some (stepV, rr1) => (some (stopV, some stepV), rr1)
        | none => (some (stopV, none), r1)
      | _ => (some (stopV, none), r1)
    | none => (none, cs)
  | _ => (none, cs)

/-- Turns the matched pieces of one bracket expression into a structure entry,
mirroring the result-processing loop of `JSONPath._parse_slices`: a present
start with no truthy stop and no truthy step becomes an index, anything else
becomes a slice. -/
def mkBracketSeg (startO : Option Int) (colonO : Option (Int × Option Int)) : Seg :=
  let stopO := colonO.map (fun x => x.1)
  let stepO := colonO.bind (fun x => x.2)
  match startO with
  | some st => if truthyOpt stopO || truthyOpt stepO then Seg.slc (some st) stopO stepO
               else Seg.idx st
  | none => Seg.slc none stopO stepO

/-- Matches one bracket expression `'[' start? (':' stop (':' step)?)? ']'`.
`none` means the pyparsing `slice_expression` fails at this position. -/
def parseOneSlice (cs : List Char) : Option (Seg × List Char) :=
  match cs with
  | '[' :: r0 =>
    let s1 := match parseSignedInt r0 with
      | some (v, r) => (some v, r)
      | none => ((none : Option Int), r0)
    let s2 := parseColonPart s1.2
    match s2.2 with
    | ']' :: r3 => some (mkBracketSeg s1.1 s2.1, r3)
    | _ => none
  | _ => none

/-- Fuelled zero-or-more loop over bracket expressions.  When one expression
fails to match, matching stops and the remaining characters are dropped,
exactly like `multislice_expression.parseString` without `parseAll=True`. -/
def parseSlicesGo : Nat → List Char → List Seg
  | 0, _ => []
  | f + 1, cs =>
    match parseOneSlice cs with
    | some (seg, rest) => seg :: parseSlicesGo f rest
    | none => []

/-- Embedding of `JSONPath._parse_slices` on a character list.  Each matched
bracket expression consumes at least one character, so the input length is
enough fuel. -/
def parseSlicesChars (cs : List Char) : List Seg := parseSlicesGo cs.length cs

/-- Embedding of `JSONPath._parse_slices` on a string. -/
def parseSlices (s : String) : List Seg := parseSlicesChars s.data

/-- Python `str.split('.')`. -/
def splitOnDot : List Char → List (List Char)
  | [] => [[]]
  | c :: cs =>
    if c = '.' then [] :: splitOnDot cs
    else
      match splitOnDot cs with
      | [] => [[c]]
      | p :: ps => (c :: p) :: ps

/-- Processing of one dot-separated element in `JSONPath._json_path_structure`:
`element.index('[')` locates the first bracket; without one the whole element
is a key, otherwise the part before it is a key and the rest goes through
`_parse_slices`. -/
def elementParse (e : List Char) : List Seg :=
  match List.findIdx? (fun c => c = '[') e with
  | none => [Seg.key (String.mk e)]
  | some i => Seg.key (String.mk (e.take i)) :: parseSlicesChars (e.drop i)

/-- Embedding of `JSONPath._json_path_structure`. -/
def jsonPathStructureChars (cs : List Char) : List Seg :=
  (splitOnDot cs).flatMap elementParse

/-- A JSONPath value: the raw text and the parsed structure, exactly the two
attributes set by `JSONPath.__init__`.  Python `__eq__` compares only
`json_path_structure`. -/
structure JSONPath where
  raw_json_path : String
  json_path_structure : List Seg
  deriving DecidableEq, Repr

/-- Embedding of `JSONPath.__init__`. -/
def JSONPath.ofString (s : String) : JSONPath :=
  ⟨s, jsonPathStructureChars s.data⟩

/-- The Python exceptions raised by the code under study.  `keyErrP`,
`typeErrP` and `idxErrP` carry the sub-path placed in `args[1]`; `idxErrBare`
stands for an IndexError whose `args` tuple has no path at position 1 (the
bare `raise IndexError` in `split`, the one-argument IndexError in
`_write_item_in_array`, and the `tuple index out of range` IndexError raised
when a handler reads `e.args[1]` of such an exception); `valueErr` is any
ValueError; `otherErr` stands for exceptions outside the caught set
(AttributeError and similar), reachable only from malformed structures. -/
inductive PyExc where
  | keyErrP (p : JSONPath)
  | typeErrP (p : JSONPath)
  | idxErrP (p : JSONPath)
  | idxErrBare
  | valueErr
  | otherErr
  deriving DecidableEq, Repr

/-- Rendering of the structure entries after the popped head, following the
string-building loop of `JSONPath.string_representation`: keys are prefixed
with a dot, indices are bracketed, and slice components are dropped when they
are `None` or `0` (Python `element.start or ''` and `bool(start)`). -/
def renderTail : List Seg → List Char
  | [] => []
  | Seg.key k :: t => '.' :: (k.data ++ renderTail t)
  | Seg.idx i :: t => '[' :: (intChars i ++ ']' :: renderTail t)
  | Seg.slc st sp stp :: t =>
    '[' :: ((if truthyOpt st then intChars (st.getD 0) else [])
      ++ ':' :: ((if truthyOpt sp then intChars (sp.getD 0) else [])
      ++ (if truthyOpt stp then ':' :: intChars (stp.getD 0) else [])
      ++ ']' :: renderTail t))

/-- Embedding of `JSONPath.string_representation` read in state-passing style:
the function pops the first element of the list it is given and folds the rest
into a string, so it returns both the rendered text (or the exception) and the
final contents of the caller's list.  `pop(0)` on an empty list raises
IndexError before anything else happens; a non-string head makes the string
concatenation in the loop fail (modelled by `otherErr`), but the head has
already been popped. -/
def stringRepresentationState (l : List Seg) : Except PyExc (List Char) × List Seg :=
  match l with
  | [] => (.error .idxErrBare, [])
  | Seg.key k :: t => (.ok (k.data ++ renderTail t), t)
  | _ :: t => (.error .otherErr, t)

/-- Embedding of `JSONPath.from_json_path_structure`: render the structure to
a string and parse it back through the constructor. -/
def fromStructure (l : List Seg) : Except PyExc JSONPath :=
  match stringRepresentationState l with
  | (.ok cs, _) => .ok (JSONPath.ofString (String.mk cs))
  | (.error e, _) => .error e

/-- Python list slice `l[:k]` for a possibly negative `k`. -/
def pyTakeInt (k : Int) (l : List Seg) : List Seg :=
  if 0 ≤ k then l.take k.toNat else l.take (l.length - k.natAbs)

/-- Python list slice `l[k:]` for a possibly negative `k`. -/
def pyDropInt (k : Int) (l : List Seg) : List Seg :=
  if 0 ≤ k then l.drop k.toNat else l.drop (l.length - k.natAbs)

/-- Embedding of `JSONPath.split`.  Raises a bare IndexError when the absolute
split position is not in `[1, len]`; a single-element structure is split into
the path of its head string and the bare relative path `@`; otherwise both
halves are rebuilt through `from_json_path_structure`, the suffix reanchored
with `@`. -/
def JSONPath.split (p : JSONPath) (atPos : Int) : Except PyExc (JSONPath × JSONPath) :=
  let len := p.json_path_structure.length
  if ¬ (1 ≤ atPos.natAbs ∧ atPos.natAbs ≤ len) then .error .idxErrBare
  else if len = 1 then
    match p.json_path_structure with
    | [Seg.key a] => .ok (JSONPath.ofString a, JSONPath.ofString "@")
    | _ => .error .otherErr
  else
    match fromStructure (pyTakeInt atPos p.json_path_structure) with
    | .error e => .error e
    | .ok a =>
      match fromStructure (Seg.key "@" :: pyDropInt atPos p.json_path_structure) with
      | .error e => .error e
      | .ok r => .ok (a, r)

/-- Embedding of `JSONPath.append` read in state-passing style: the Python
method mutates `self` and returns `None`, so the result here is the final
value of `self`.  It first checks `relative_path.is_relative()`, which reads
`raw_json_path[0]` (IndexError on an empty string) and compares it with `@`;
a non-relative argument raises ValueError. -/
def JSONPath.append (p rel : JSONPath) : Except PyExc JSONPath :=
  match rel.raw_json_path.data with
  | [] => .error .idxErrBare
  | c :: rest =>
    if c = '@' then
      .ok ⟨p.raw_json_path ++ String.mk rest, p.json_path_structure ++ rel.json_path_structure.drop 1⟩
    else .error .valueErr

/-- A Python value of the kinds that flow through the tree access engine:
`None`, booleans, integers, floats (finite floats carried exactly as
rationals), strings, lists and string-keyed dicts (a dict is its entry list in
insertion order). -/
inductive PyVal where
  | null
  | bool (b : Bool)
  | int (i : Int)
  | float (q : Rat)
  | str (s : String)
  | list (xs : List PyVal)
  | dict (d : List (String × PyVal))
  deriving Repr

/-- The failure kinds of one Python subscript access `container[key]`:
KeyError, TypeError, IndexError, and the ValueError raised by a zero-step
slice. -/
inductive SubKind where
  | keyK
  | typeK
  | indexK
  | valueK
  deriving DecidableEq, Repr

/-- First value bound to a string key in a dict (dicts never hold duplicate
keys, so first match is the match). -/
def dictLookup (d : List (String × PyVal)) (k : String) : Option PyVal :=
  match d with
  | [] => none
  | e :: rest => if e.1 = k then some e.2 else dictLookup rest k

/-- Python list element access `xs[i]` with negative indices counting from the
end; `none` when the index is out of range. -/
def pyListGet (xs : List PyVal) (i : Int) : Option PyVal :=
  if 0 ≤ i then xs.get? i.toNat
  else if i.natAbs ≤ xs.length then xs.get? (xs.length - i.natAbs)
  else none

/-- The `slice.indices` normalisation of CPython: given the three optional
slice components and the sequence length, produce the effective
(start, stop, step) triple, or fail when the step is zero. -/
def pySliceIndices (st sp stp : Option Int) (len : Nat) : Option (Int × Int × Int) :=
  let step := stp.getD 1
  if step = 0 then none
  else if 0 < step then
    let start := match st with
      | none => 0
      | some v => if v < 0 then max (len + v) 0 else min v len
    let stop := match sp with
      | none => (len : Int)
      | some v => if v < 0 then max (len + v) 0 else min v len
    some (start, stop, step)
  else
    let start := match st with
      | none => (len : Int) - 1
      | some v => if v < 0 then (if (len : Int) + v < 0 then -1 else len + v) else min v ((len : Int) - 1)
    let stop := match sp with
      | none => -1
      | some v => if v < 0 then max (len + v) (-1) else min v ((len : Int) - 1)
    some (start, stop, step)

/-- Number of elements selected by a normalised slice. -/
def pySliceCount (start stop step : Int) : Nat :=
  if 0 < step then
    if start < stop then ((stop - start).toNat + (step.toNat - 1)) / step.toNat else 0
  else
    if stop < start then ((start - stop).toNat + (step.natAbs - 1)) / step.natAbs else 0

/-- Python list slicing `xs[st:sp:stp]`; `none` only for a zero step. -/
def pySliceList (xs : List PyVal) (st sp stp : Option Int) : Option (List PyVal) :=
  match pySliceIndices st sp stp xs.length with
  | none => none
  | some (start, stop, step) =>
    some ((List.range (pySliceCount start stop step)).filterMap
      (fun k => pyListGet xs (start + k * step)))

/-- Python string slicing, elementwise on the character list. -/
def pySliceStr (s : String) (st sp stp : Option Int) : Option String :=
  match pySliceIndices st sp stp s.data.length with
  | none => none
  | some (start, stop, step) =>
    some (String.mk ((List.range (pySliceCount start stop step)).filterMap
      (fun k =>
        let i := start + k * step
        if 0 ≤ i then s.data.get? i.toNat else none)))

/-- One Python subscript access `current_item[key]` for the three key shapes a
path structure can hold.  Dicts: a missing string key or any integer key is a
KeyError (the dicts here are string-keyed), an unhashable slice key is a
TypeError.  Lists: integer access with IndexError out of range, slice access
total except for a zero step (ValueError), string key a TypeError.  Strings
are subscriptable in Python, by index and slice.  Every other value raises
TypeError. -/
def pySubscript (v : PyVal) (seg : Seg) : Except SubKind PyVal :=
  match v, seg with
  | .dict d, .key k =>
    match dictLookup d k with
    | some x => .ok x
    | none => .error .keyK
  | .dict _, .idx _ => .error .keyK
  | .dict _, .slc _ _ _ => .error .typeK
  | .list _, .key _ => .error .typeK
  | .list xs, .idx i =>
    match pyListGet xs i with
    | some x => .ok x
    | none => .error .indexK
  | .list xs, .slc a b c =>
    match pySliceList xs a b c with
    | some ys => .ok (.list ys)
    | none => .error .valueK
  | .str _, .key _ => .error .typeK
  | .str s, .idx i =>
    match (if 0 ≤ i then s.data.get? i.toNat
           else if i.natAbs ≤ s.data.length then s.data.get? (s.data.length - i.natAbs)
           else none) with
    | some c => .ok (.str (String.mk [c]))
    | none => .error .indexK
  | .str s, .slc a b c =>
    match pySliceStr s a b c with
    | some t => .ok (.str t)
    | none => .error .valueK
  | _, _ => .error .typeK

/-- The outcomes of `get_item_from_json_path` when it fails: the three
re-raised exceptions each carry in `args[1]` the sub-path built by
`path.split(at=key_pos + 1)[0]`; a ValueError from a zero-step slice is not
caught by the except clauses and escapes without any path; `uncaughtOther`
covers an exception escaping from the `split` call itself (unreachable for
parsed paths). -/
inductive GetErr where
  | keyNotFound (sub : JSONPath)
  | notSubscriptable (sub : JSONPath)
  | indexOutOfRange (sub : JSONPath)
  | uncaughtValueError
  | uncaughtOther (e : PyExc)
  deriving Repr

/-- Attaches the sub-path `path.split(at=pos)[0]` to a failed access of the
given kind, as the three except clauses of `get_item_from_json_path` do. -/
def attachGetErr (p : JSONPath) (kind : SubKind) (pos : Nat) : GetErr :=
  match kind with
  | .valueK => .uncaughtValueError
  | _ =>
    match p.split (Int.ofNat pos) with
    | .error e => .uncaughtOther e
    | .ok (sub, _) =>
      match kind with
      | .keyK => .keyNotFound sub
      | .typeK => .notSubscriptable sub
      | .indexK => .indexOutOfRange sub
      | .valueK => .uncaughtValueError

/-- The walking loop of `get_item_from_json_path`: `segs` is the remaining
structure, `pos` the enumeration index of its head in the full path.  Segments
equal to the strings `$` or `@` are skipped wherever they occur. -/
def getGo (p : JSONPath) : List Seg → Nat → PyVal → Except GetErr PyVal
  | [], _, cur => .ok cur
  | seg :: rest, pos, cur =>
    if seg = Seg.key "$" ∨ seg = Seg.key "@" then getGo p rest (pos + 1) cur
    else
      match pySubscript cur seg with
      | .ok v => getGo p rest (pos + 1) v
      | .error kind => .error (attachGetErr p kind (pos + 1))

/-- Embedding of `get_item_from_json_path`. -/
def getItemFromJsonPath (p : JSONPath) (json : PyVal) : Except GetErr PyVal :=
  getGo p p.json_path_structure 0 json

/-- Conversion of a `get_item_from_json_path` failure into the exception that
reaches the caller of the write engine. -/
def geToPy : GetErr → PyExc
  | .keyNotFound p => .keyErrP p
  | .notSubscriptable p => .typeErrP p
  | .indexOutOfRange p => .idxErrP p
  | .uncaughtValueError => .valueErr
  | .uncaughtOther e => e

/-- Replace the value of the first entry with the given key; no change when
the key is absent. -/
def dictModify (d : List (String × PyVal)) (k : String) (f : PyVal → PyVal) :
    List (String × PyVal) :=
  match d with
  | [] => []
  | e :: rest => if e.1 = k then (e.1, f e.2) :: rest else e :: dictModify rest k f

/-- Python `dict.update` with a single key: replace the value of an existing
entry in place, otherwise append the new entry at the end. -/
def dictUpdate (d : List (String × PyVal)) (k : String) (v : PyVal) :
    List (String × PyVal) :=
  match d with
  | [] => [(k, v)]
  | e :: rest => if e.1 = k then (e.1, v) :: rest else e :: dictUpdate rest k v

/-- Modify the element at a plain position of a list. -/
def listModifyAt : List PyVal → Nat → (PyVal → PyVal) → List PyVal
  | [], _, _ => []
  | x :: rest, 0, f => f x :: rest
  | x :: rest, n + 1, f => x :: listModifyAt rest n f

/-- Modify the element addressed by a Python index (negative counts from the
end); no change when the index is out of range. -/
def pyListModify (xs : List PyVal) (i : Int) (f : PyVal → PyVal) : List PyVal :=
  if 0 ≤ i then (if i.toNat < xs.length then listModifyAt xs i.toNat f else xs)
  else (if i.natAbs ≤ xs.length then listModifyAt xs (xs.length - i.natAbs) f else xs)

/-- Functional reading of an in-place mutation performed at the end of a
walked path.  The Python write helpers obtain a container by reference with
`get_item_from_json_path` and mutate it, so the caller's tree changes exactly
when every access on the way is reference-preserving: dict key access and
list index access are; list or string slicing and string indexing return
fresh objects, so a mutation through them never reaches the original tree and
the tree is returned unchanged (re-aliasing through a slice copy followed by
an index is not modelled; no statement below writes through a slice).
Anchor strings are skipped exactly as the read walk skips them. -/
def refUpdateAt : List Seg → PyVal → (PyVal → PyVal) → PyVal
  | [], j, f => f j
  | seg :: rest, j, f =>
    if seg = Seg.key "$" ∨ seg = Seg.key "@" then refUpdateAt rest j f
    else
      match j, seg with
      | .dict d, .key k => .dict (dictModify d k (fun v => refUpdateAt rest v f))
      | .list xs, .idx i => .list (pyListModify xs i (fun v => refUpdateAt rest v f))
      | _, _ => j

/-- Embedding of `_write_item_in_dict`.  The key is the last structure entry
of the full path (IndexError on an empty structure, ValueError when it is not
a string); the parent is fetched again with `get_item_from_json_path` and
mutated with `dict.update`; a non-dict parent would fail on `.keys()`
(unreachable from `write_item_in_path`, which dispatches on the parent type,
modelled by `otherErr`). -/
def writeItemInDict (item : PyVal) (inPath : JSONPath) (json : PyVal) :
    Except PyExc PyVal :=
  match inPath.json_path_structure.getLast? with
  | none => .error .idxErrBare
  | some (Seg.key k) =>
    match inPath.split (-1) with
    | .error e => .error e
    | .ok (parentPath, _) =>
      match getItemFromJsonPath parentPath json with
      | .error ge => .error (geToPy ge)
      | .ok parent =>
        match parent with
        | .dict _ => .ok (refUpdateAt parentPath.json_path_structure json
            (fun p => match p with
              | .dict d => .dict (dictUpdate d k item)
              | other => other))
        | _ => .error .otherErr
  | some _ => .error .valueErr

/-- Embedding of `_write_item_in_array`.  A slice or non-integer last segment
raises ValueError; index `-1` appends; an index below `-1` or above the
current length raises a one-argument IndexError (`idxErrBare`); otherwise the
item is inserted at the index.  When the fetched array is `None` the Python
code rebinds a fresh local empty list, so the mutation is lost and the tree
comes back unchanged, which the reference-update models by leaving a non-list
target untouched.  A fetched value that is neither a list nor `None` is
unreachable from `write_item_in_path` (modelled by `otherErr`). -/
def writeItemInArray (item : PyVal) (inPath : JSONPath) (json : PyVal) :
    Except PyExc PyVal :=
  match inPath.json_path_structure.getLast? with
  | none => .error .idxErrBare
  | some (Seg.slc _ _ _) => .error .valueErr
  | some (Seg.key _) => .error .valueErr
  | some (Seg.idx i) =>
    match inPath.split (-1) with
    | .error e => .error e
    | .ok (arrayPath, _) =>
      match getItemFromJsonPath arrayPath json with
      | .error ge => .error (geToPy ge)
      | .ok arr =>
        match (match arr with
               | .null => some ([] : List PyVal)
               | .list xs => some xs
               | _ => none) with
        | none => .error .otherErr
        | some xs =>
          if i = -1 then
            .ok (refUpdateAt arrayPath.json_path_structure json
              (fun a => match a with
                | .list ys => .list (ys ++ [item])
                | other => other))
          else if i < -1 ∨ (xs.length : Int) < i then .error .idxErrBare
          else
            .ok (refUpdateAt arrayPath.json_path_structure json
              (fun a => match a with
                | .list ys => .list (ys.take i.toNat ++ item :: ys.drop i.toNat)
                | other => other))

/-- One wrapping step of `_write_item_in_path`: a one-entry dict for a string
key, a one-element list for an integer index, nothing for a slice. -/
def wrapSeg (seg : Seg) (acc : PyVal) : PyVal :=
  match seg with
  | Seg.key k => PyVal.dict [(k, acc)]
  | Seg.idx _ => PyVal.list [acc]
  | Seg.slc _ _ _ => acc

/-- Embedding of `_write_item_in_path`: wrap the item once for every structure
entry after the anchor, innermost last. -/
def buildMissingItem (item : PyVal) (missingPath : JSONPath) : PyVal :=
  (missingPath.json_path_structure.drop 1).foldr wrapSeg item

/-- Exception classes caught by the `except (KeyError, TypeError, IndexError)`
clause of `write_item_in_path`. -/
def isCaughtExc : PyExc → Bool
  | .keyErrP _ => true
  | .typeErrP _ => true
  | .idxErrP _ => true
  | .idxErrBare => true
  | .valueErr => false
  | .otherErr => false

/-- The path in `args[1]` of a caught exception; `none` makes the handler
itself fail with `tuple index out of range`. -/
def excArgPath : PyExc → Option JSONPath
  | .keyErrP p => some p
  | .typeErrP p => some p
  | .idxErrP p => some p
  | _ => none

/-- The try block of `write_item_in_path`: fetch the parent and dispatch on
its runtime type; a parent that is neither dict nor list raises
`TypeError('Cannot write item in path: ', parent_path)`. -/
def writeAttempt (item : PyVal) (inPath parentPath : JSONPath) (json : PyVal) :
    Except PyExc PyVal :=
  match getItemFromJsonPath parentPath json with
  | .error ge => .error (geToPy ge)
  | .ok parent =>
    match parent with
    | .dict _ => writeItemInDict item inPath json
    | .list _ => writeItemInArray item inPath json
    | _ => .error (.typeErrP parentPath)

/-- The body of `write_item_in_path` after the `json is None` initialisation,
shared by both entry branches; `recur` is the recursive auto-vivification
call.  A caught exception whose `args[1]` holds a path drives one recursive
auto-vivification step; a caught exception without it (the one-argument
IndexError) makes the handler raise `tuple index out of range`
(`idxErrBare`); ValueError is not caught.  The dead local `item_key` of the
source cannot fail (a relative split result always has a nonempty structure)
and is not modelled. -/
def writeItemCore (recur : PyVal → JSONPath → Option PyVal → Option (Except PyExc PyVal))
    (item : PyVal) (inPath : JSONPath) (j : PyVal) : Option (Except PyExc PyVal) :=
  match inPath.split (-1) with
  | .error e => some (.error e)
  | .ok (parentPath, _) =>
    match writeAttempt item inPath parentPath j with
    | .ok j2 => some (.ok j2)
    | .error e =>
      if isCaughtExc e then
        match excArgPath e with
        | some errorAtPath =>
          match inPath.split (Int.ofNat errorAtPath.json_path_structure.length) with
          | .error e2 => some (.error e2)
          | .ok (_, missingPath) =>
            recur (buildMissingItem item missingPath) errorAtPath (some j)
        | none => some (.error .idxErrBare)
      else some (.error e)

/-- Embedding of `write_item_in_path`, with explicit fuel for the
auto-vivification recursion (`none`: the recursion was still running when the
fuel ran out; the recursion does not terminate on every input).  A `None`
tree with a single-segment path returns the item itself; otherwise a `None`
tree is replaced by an empty list or dict depending on the second structure
entry, and the shared body takes over. -/
def writeItemInPath : Nat → PyVal → JSONPath → Option PyVal → Option (Except PyExc PyVal)
  | 0, _, _, _ => none
  | fuel + 1, item, inPath, jsonO =>
    match jsonO with
    | none =>
      if inPath.json_path_structure.length = 1 then some (.ok item)
      else writeItemCore (writeItemInPath fuel) item inPath
        (match inPath.json_path_structure.get? 1 with
         | some (Seg.idx _) => PyVal.list []
         | _ => PyVal.dict [])
    | some j => writeItemCore (writeItemInPath fuel) item inPath j

/-- State-passing reading of `write_item_in_path` for a tree argument that is
not `None`: every normal return path of the Python function returns the very
`json` object it was given (`return json`, also through the recursive call,
which passes the same object), after mutating it in place, so on a normal
return the caller's tree holds exactly the returned value.  The docstring of
the source promises a copy instead. -/
def writeItemInPathFinalState (fuel : Nat) (item : PyVal) (inPath : JSONPath)
    (json : PyVal) : Option (Except PyExc PyVal) :=
  writeItemInPath fuel item inPath (some json)

/-- Top-level keys of a dict value, used to observe mutation of a tree. -/
def dictKeys : PyVal → List String
  | .dict d => d.map (fun e => e.1)
  | _ => []

/-- Python whitespace accepted around a `float` literal. -/
def pySpace (c : Char) : Bool :=
  c = ' ' ∨ c = '\t' ∨ c = '\n' ∨ c = '\r' ∨ c = '\x0c' ∨ c = '\x0b'

/-- ASCII lowercasing, as `str.lower` behaves on the ASCII inputs involved
here. -/
def asciiLowerChar (c : Char) : Char :=
  if 'A' ≤ c ∧ c ≤ 'Z' then Char.ofNat (c.toNat + 32) else c

/-- ASCII lowercasing of a character list. -/
def asciiLower (cs : List Char) : List Char := cs.map asciiLowerChar

/-- Exponent part of a Python `float` literal: empty, or `e`/`E`, an optional
sign, and a nonempty digit run ending the string. -/
def pyFloatExp (r : List Char) : Bool :=
  match r with
  | [] => true
  | c :: r1 =>
    if c = 'e' ∨ c = 'E' then
      let r2 := match r1 with
        | d :: rr => if d = '-' ∨ d = '+' then rr else r1
        | [] => r1
      let ds := r2.takeWhile Char.isDigit
      ¬ds.isEmpty && (r2.dropWhile Char.isDigit).isEmpty
    else false

/-- Mantissa of a Python `float` literal: digits with an optional fractional
point, at least one digit overall, then an optional exponent. -/
def pyFloatNumBody (b : List Char) : Bool :=
  let intPart := b.takeWhile Char.isDigit
  let r1 := b.dropWhile Char.isDigit
  match r1 with
  | '.' :: r2 =>
    let frac := r2.takeWhile Char.isDigit
    let r3 := r2.dropWhile Char.isDigit
    (¬intPart.isEmpty || ¬frac.isEmpty) && pyFloatExp r3
  | _ => ¬intPart.isEmpty && pyFloatExp r1

/-- Acceptance of a string by the Python `float` constructor: surrounding
whitespace, an optional sign, then either a decimal literal or one of the
words `inf`, `infinity`, `nan` (case-insensitive).  Digit-group underscores
accepted by CPython are not modelled and no statement below involves them. -/
def pyFloatAccepts (cs : List Char) : Bool :=
  let t := ((cs.dropWhile pySpace).reverse.dropWhile pySpace).reverse
  let body := match t with
    | c :: r => if c = '-' ∨ c = '+' then r else t
    | [] => t
  let low := asciiLower body
  if low == "inf".data || low == "infinity".data || low == "nan".data then true
  else pyFloatNumBody body

/-- Embedding of `str_is_bool`. -/
def strIsBool (s : String) : Bool :=
  (asciiLower s.data == "true".data) || (asciiLower s.data == "false".data)

/-- Embedding of `str_is_int`: an empty string fails, one leading sign is
stripped, and the rest must be a nonempty digit run (`str.isdigit`, modelled
for ASCII digits; the `isinstance(value, bool)` guard cannot fire for a
string argument). -/
def strIsInt (s : String) : Bool :=
  match s.data with
  | [] => false
  | c :: rest =>
    let v := if c = '-' ∨ c = '+' then rest else c :: rest
    ¬v.isEmpty && v.all Char.isDigit

/-- Embedding of `str_is_float`: an empty string fails, one leading sign is
stripped, the words `nan`, `infinity`, `inf` (case-insensitive) are rejected
outright, and anything else is accepted exactly when the Python `float`
constructor accepts it. -/
def strIsFloat (s : String) : Bool :=
  match s.data with
  | [] => false
  | c :: rest =>
    let v := if c = '-' ∨ c = '+' then rest else c :: rest
    let low := asciiLower v
    if low == "nan".data || low == "infinity".data || low == "inf".data then false
    else pyFloatAccepts v

/-- The `JSONNodeType` enumeration of the source. -/
inductive JSONNodeType where
  | STRING | INTEGER | NUMBER | OBJECT | ARRAY | BOOLEAN | NULL | INFER
  deriving DecidableEq, Repr

/-- Embedding of `infer_json_type`.  For text the source tests, in order,
`str_is_bool`, then `str_is_float`, then `str_is_int`; a float input maps to
INTEGER exactly when it is integral (`float.is_integer`, i.e. denominator 1
for the exact rational carried here); a Python `int` input reaches no branch
and raises ValueError. -/
def inferJsonType (v : PyVal) : Except String JSONNodeType :=
  match v with
  | .null => .ok .NULL
  | .dict _ => .ok .OBJECT
  | .list _ => .ok .ARRAY
  | .str s =>
    if strIsBool s then .ok .BOOLEAN
    else if strIsFloat s then .ok .NUMBER
    else if strIsInt s then .ok .INTEGER
    else .ok .STRING
  | .float q => if q.den = 1 then .ok .INTEGER else .ok .NUMBER
  | .bool _ => .ok .BOOLEAN
  | .int _ => .error "unable to infer JSON type"

/-- A key string that survives the render/reparse round trip: it contains no
dot (the separator) and no opening bracket (the slice-expression marker). -/
def wfKeyStr (k : String) : Prop := ∀ c ∈ k.data, c ≠ '.' ∧ c ≠ '['

instance (k : String) : Decidable (wfKeyStr k) :=
  List.decidableBAll _ k.data

/-- A path structure entry that renders and reparses faithfully: a
well-formed key or an integer index.  Slice entries are excluded because
their rendering drops zero components and an open stop makes the bracket
unparseable. -/
def wfSeg : Seg → Prop
  | Seg.key k => wfKeyStr k
  | Seg.idx _ => True
  | Seg.slc _ _ _ => False

instance (s : Seg) : Decidable (wfSeg s) :=
  match s with
  | Seg.key k => (inferInstance : Decidable (wfKeyStr k))
  | Seg.idx _ => isTrue trivial
  | Seg.slc _ _ _ => isFalse (fun h => h)

/-- All entries of a structure tail are well formed. -/
def wfTail (l : List Seg) : Prop := ∀ s ∈ l, wfSeg s

instance (l : List Seg) : Decidable (wfTail l) :=
  List.decidableBAll _ l

/-- A well-formed structure: a key head (the anchor slot) followed by a
well-formed tail. -/
def wfChain : List Seg → Prop
  | Seg.key k :: t => wfKeyStr k ∧ wfTail t
  | _ => False

instance (l : List Seg) : Decidable (wfChain l) :=
  match l with
  | Seg.key k :: t => (inferInstance : Decidable (wfKeyStr k ∧ wfTail t))
  | [] => isFalse (fun h => h)
  | Seg.idx _ :: _ => isFalse (fun h => h)
  | Seg.slc _ _ _ :: _ => isFalse (fun h => h)

/-- A boundary condition for maximal-munch digit parsing: the following text
is empty or begins with a non-digit. -/
def digitBoundary (ys : List Char) : Prop :=
  ys = [] ∨ ∃ y t, ys = y :: t ∧ y.isDigit = false

/-- Rendering of a run of consecutive index segments, as
`string_representation` produces it. -/
def idxRunChars : List Int → List Char
  | [] => []
  | i :: t => '[' :: (intChars i ++ ']' :: idxRunChars t)

/-- The effective cut position of `JSONPath.split` as a plain list index:
Python `structure[:at]` takes `at` elements for a nonnegative `at` and
`len - |at|` for a negative one; the single-element branch behaves like
cutting after the head. -/
def splitNat (k : Int) (len : Nat) : Nat :=
  if len = 1 then 1 else if 0 ≤ k then k.toNat else len - k.natAbs

theorem digitVal_digitChar (n : Nat) (h : n < 10) : digitVal (digitChar n) = n := by
  interval_cases n <;> rfl

theorem isDigit_digitChar (n : Nat) (h : n < 10) : (digitChar n).isDigit = true := by
  interval_cases n <;> rfl

theorem natCharsGo_spec : ∀ (f n : Nat), n < f →
    digitsToNat (natCharsGo f n) = n ∧ natCharsGo f n ≠ [] ∧
      ∀ c ∈ natCharsGo f n, c.isDigit = true := by
  intro f
  induction f with
  | zero => intro n h; omega
  | succ f ih =>
    intro n h
    by_cases h10 : n < 10
    · refine ⟨?_, ?_, ?_⟩
      · simp [natCharsGo, h10, digitsToNat, digitVal_digitChar n h10]
      · simp [natCharsGo, h10]
      · simp [natCharsGo, h10]
        exact isDigit_digitChar n h10
    · have hdiv : n / 10 < f := by
        have h1 : n / 10 < n := Nat.div_lt_self (by omega) (by norm_num)
        omega
      obtain ⟨ihv, ihne, ihd⟩ := ih (n / 10) hdiv
      have hmod : n % 10 < 10 := Nat.mod_lt _ (by norm_num)
      refine ⟨?_, ?_, ?_⟩
      · simp only [natCharsGo, if_neg h10]
        unfold digitsToNat at ihv ⊢
        rw [List.foldl_append]
        simp [ihv, digitVal_digitChar _ hmod]
        omega
      · simp [natCharsGo, if_neg h10]
      · simp only [natCharsGo, if_neg h10]
        intro c hc
        rcases List.mem_append.mp hc with hc | hc
        · exact ihd c hc
        · simp at hc
          subst hc
          exact isDigit_digitChar _ hmod

theorem digitsToNat_natChars (n : Nat) : digitsToNat (natChars n) = n :=
  (natCharsGo_spec (n + 1) n (Nat.lt_succ_self n)).1

theorem natChars_ne_nil (n : Nat) : natChars n ≠ [] :=
  (natCharsGo_spec (n + 1) n (Nat.lt_succ_self n)).2.1

theorem natChars_digits (n : Nat) : ∀ c ∈ natChars n, c.isDigit = true :=
  (natCharsGo_spec (n + 1) n (Nat.lt_succ_self n)).2.2

/-- Characters appearing in the rendering of an integer are digits or the
minus sign. -/
theorem intChars_mem (i : Int) : ∀ c ∈ intChars i, c.isDigit = true ∨ c = '-' := by
  intro c hc
  unfold intChars at hc
  by_cases hneg : i < 0
  · rw [if_pos hneg] at hc
    rcases List.mem_cons.mp hc with hc | hc
    · right; exact hc
    · exact Or.inl (natChars_digits _ c hc)
  · rw [if_neg hneg] at hc
    exact Or.inl (natChars_digits _ c hc)

theorem takeWhile_all_append {p : Char → Bool} :
    ∀ (xs ys : List Char), (∀ c ∈ xs, p c = true) →
    (ys = [] ∨ ∃ y t, ys = y :: t ∧ p y = false) →
    (xs ++ ys).takeWhile p = xs ∧ (xs ++ ys).dropWhile p = ys := by
  intro xs
  induction xs with
  | nil =>
    intro ys _ hys
    rcases hys with rfl | ⟨y, t, rfl, hy⟩
    · simp
    · simp [List.takeWhile, List.dropWhile, hy]
  | cons x xs ih =>
    intro ys hall hys
    have hx : p x = true := hall x (by simp)
    obtain ⟨h1, h2⟩ := ih ys (fun c hc => hall c (by simp [hc])) hys
    simp [List.takeWhile, List.dropWhile, hx, h1, h2]

theorem parseSignedInt_neg_cons (X : List Char) :
    parseSignedInt ('-' :: X) =
      (if (X.takeWhile Char.isDigit).isEmpty then none
       else some (-(Int.ofNat (digitsToNat (X.takeWhile Char.isDigit))),
                  X.dropWhile Char.isDigit)) := rfl

theorem parseSignedInt_cons_of_ne (c : Char) (X : List Char) (h : c ≠ '-') :
    parseSignedInt (c :: X) =
      (if ((c :: X).takeWhile Char.isDigit).isEmpty then none
       else some (Int.ofNat (digitsToNat ((c :: X).takeWhile Char.isDigit)),
                  (c :: X).dropWhile Char.isDigit)) := by
  simp only [parseSignedInt, if_neg h]
  simp

theorem parseSignedInt_intChars (i : Int) (ys : List Char) (hys : digitBoundary ys) :
    parseSignedInt (intChars i ++ ys) = some (i, ys) := by
  have hysb : ys = [] ∨ ∃ y t, ys = y :: t ∧ Char.isDigit y = false := hys
  by_cases hneg : i < 0
  · have hic : intChars i = '-' :: natChars i.natAbs := by simp [intChars, hneg]
    rw [hic]
    obtain ⟨ht, hd⟩ := takeWhile_all_append (natChars i.natAbs) ys (natChars_digits _) hysb
    have hne := natChars_ne_nil i.natAbs
    rw [List.cons_append, parseSignedInt_neg_cons, ht, hd]
    rw [if_neg (by simpa [List.isEmpty_iff] using hne)]
    have habs : (Int.ofNat i.natAbs) = -i := by
      rw [Int.ofNat_eq_natCast]; omega
    rw [digitsToNat_natChars, habs]
    simp
  · have hic : intChars i = natChars i.toNat := by simp [intChars, hneg]
    rw [hic]
    obtain ⟨ht, hd⟩ := takeWhile_all_append (natChars i.toNat) ys (natChars_digits _) hysb
    have hne := natChars_ne_nil i.toNat
    have hhead : ∃ c cs, natChars i.toNat = c :: cs := by
      cases h : natChars i.toNat with
      | nil => exact absurd h hne
      | cons c cs => exact ⟨c, cs, rfl⟩
    obtain ⟨c, cs, hcc⟩ := hhead
    have hcd : c.isDigit = true := natChars_digits i.toNat c (by rw [hcc]; simp)
    have hcne : c ≠ '-' := by
      intro hceq
      subst hceq
      simp [Char.isDigit] at hcd
    rw [hcc] at ht hd ⊢
    rw [List.cons_append, parseSignedInt_cons_of_ne c _ hcne]
    rw [← List.cons_append, ht, hd]
    rw [if_neg (by simp [List.isEmpty_iff])]
    rw [← hcc, digitsToNat_natChars]
    have htn : (Int.ofNat i.toNat) = i := by
      rw [Int.ofNat_eq_natCast]; omega
    rw [htn]

theorem parseColonPart_rbracket (r : List Char) :
    parseColonPart (']' :: r) = (none, ']' :: r) := rfl

theorem parseOneSlice_bracket (i : Int) (rest : List Char) :
    parseOneSlice ('[' :: (intChars i ++ ']' :: rest)) = some (Seg.idx i, rest) := by
  simp only [parseOneSlice]
  rw [parseSignedInt_intChars i (']' :: rest) (Or.inr ⟨']', rest, rfl, rfl⟩)]
  simp [parseColonPart_rbracket, mkBracketSeg, truthyOpt]

theorem idxRunChars_append : ∀ (a b : List Int),
    idxRunChars (a ++ b) = idxRunChars a ++ idxRunChars b := by
  intro a b
  induction a with
  | nil => simp [idxRunChars]
  | cons i t ih => simp [idxRunChars, ih]

theorem no_dot_intChars (i : Int) : '.' ∉ intChars i := by
  intro h
  rcases intChars_mem i '.' h with hd | hm
  · simp [Char.isDigit] at hd
  · exact absurd hm (by decide)

theorem no_dot_idxRunChars : ∀ (run : List Int), '.' ∉ idxRunChars run := by
  intro run
  induction run with
  | nil => simp [idxRunChars]
  | cons i t ih =>
    simp only [idxRunChars, List.mem_cons, List.mem_append]
    rintro (h | h | h | h)
    · exact absurd h (by decide)
    · exact no_dot_intChars i h
    · exact absurd h (by decide)
    · exact ih h

theorem parseSlicesGo_run : ∀ (run : List Int) (f : Nat),
    (idxRunChars run).length ≤ f →
    parseSlicesGo f (idxRunChars run) = run.map Seg.idx := by
  intro run
  induction run with
  | nil =>
    intro f _
    cases f with
    | zero => rfl
    | succ f => simp [idxRunChars, parseSlicesGo, parseOneSlice]
  | cons i t ih =>
    intro f hf
    have hlen : (idxRunChars (i :: t)).length
        = 2 + (intChars i).length + (idxRunChars t).length := by
      simp [idxRunChars]
      omega
    cases f with
    | zero =>
      rw [hlen] at hf
      omega
    | succ f =>
      show parseSlicesGo (f + 1) (idxRunChars (i :: t)) = _
      rw [show idxRunChars (i :: t) = '[' :: (intChars i ++ ']' :: idxRunChars t) from rfl]
      simp only [parseSlicesGo, parseOneSlice_bracket]
      rw [ih f (by rw [hlen] at hf; omega)]
      rfl

theorem parseSlicesChars_run (run : List Int) :
    parseSlicesChars (idxRunChars run) = run.map Seg.idx :=
  parseSlicesGo_run run _ (le_refl _)

theorem findIdx?_eq_none_of : ∀ (xs : List Char) (i : Nat),
    (∀ c ∈ xs, c ≠ '[') →
    List.findIdx? (fun c => c = '[') xs i = none := by
  intro xs
  induction xs with
  | nil => intro i _; rfl
  | cons x xs ih =>
    intro i h
    have hx : x ≠ '[' := h x (by simp)
    simp only [List.findIdx?]
    rw [if_neg (by simpa using hx)]
    exact ih (i + 1) (fun c hc => h c (by simp [hc]))

theorem findIdx?_bracket : ∀ (xs ys : List Char) (i : Nat),
    (∀ c ∈ xs, c ≠ '[') →
    List.findIdx? (fun c => c = '[') (xs ++ '[' :: ys) i = some (i + xs.length) := by
  intro xs
  induction xs with
  | nil =>
    intro ys i _
    simp [List.findIdx?]
  | cons x xs ih =>
    intro ys i h
    have hx : x ≠ '[' := h x (by simp)
    simp only [List.cons_append, List.findIdx?, List.append_eq]
    rw [if_neg (by simpa using hx)]
    rw [ih ys (i + 1) (fun c hc => h c (by simp [hc]))]
    congr 1
    simp
    omega

theorem elementParse_piece (k0 : List Char) (run : List Int)
    (hk : ∀ c ∈ k0, c ≠ '.' ∧ c ≠ '[') :
    elementParse (k0 ++ idxRunChars run)
      = Seg.key (String.mk k0) :: run.map Seg.idx := by
  cases run with
  | nil =>
    unfold elementParse
    rw [show idxRunChars [] = [] from rfl, List.append_nil]
    rw [findIdx?_eq_none_of k0 0 (fun c hc => (hk c hc).2)]
    simp
  | cons i t =>
    unfold elementParse
    rw [show idxRunChars (i :: t) = '[' :: (intChars i ++ ']' :: idxRunChars t) from rfl]
    rw [findIdx?_bracket k0 _ 0 (fun c hc => (hk c hc).2)]
    simp only [Nat.zero_add]
    rw [List.take_left, List.drop_left]
    rw [show '[' :: (intChars i ++ ']' :: idxRunChars t) = idxRunChars (i :: t) from rfl]
    rw [parseSlicesChars_run]

theorem splitOnDot_no_dot : ∀ (xs : List Char), '.' ∉ xs → splitOnDot xs = [xs] := by
  intro xs
  induction xs with
  | nil => intro _; rfl
  | cons c cs ih =>
    intro h
    have hc : c ≠ '.' := fun he => h (by simp [he])
    have hcs : '.' ∉ cs := fun he => h (by simp [he])
    simp only [splitOnDot]
    rw [if_neg hc, ih hcs]

theorem splitOnDot_append : ∀ (xs ys : List Char), '.' ∉ xs →
    splitOnDot (xs ++ '.' :: ys) = xs :: splitOnDot ys := by
  intro xs
  induction xs with
  | nil =>
    intro ys _
    simp [splitOnDot]
  | cons c cs ih =>
    intro ys h
    have hc : c ≠ '.' := fun he => h (by simp [he])
    have hcs : '.' ∉ cs := fun he => h (by simp [he])
    simp only [List.cons_append, splitOnDot, List.append_eq]
    rw [if_neg hc, ih ys hcs]

theorem parse_render_aux : ∀ (rest : List Seg), wfTail rest →
    ∀ (k0 : List Char) (run : List Int), (∀ c ∈ k0, c ≠ '.' ∧ c ≠ '[') →
    jsonPathStructureChars ((k0 ++ idxRunChars run) ++ renderTail rest)
      = Seg.key (String.mk k0) :: (run.map Seg.idx ++ rest) := by
  intro rest
  induction rest with
  | nil =>
    intro _ k0 run hk
    rw [show renderTail [] = [] from rfl, List.append_nil]
    unfold jsonPathStructureChars
    rw [splitOnDot_no_dot _ (by
      intro hmem
      rcases List.mem_append.mp hmem with h | h
      · exact (hk '.' h).1 rfl
      · exact no_dot_idxRunChars run h)]
    simp only [List.flatMap_cons, List.flatMap_nil, List.append_nil]
    rw [elementParse_piece k0 run hk]
  | cons seg r ih =>
    intro hwf k0 run hk
    have hwseg : wfSeg seg := hwf seg (by simp)
    have hwr : wfTail r := fun s hs => hwf s (by simp [hs])
    have hnodot : '.' ∉ k0 ++ idxRunChars run := by
      intro hmem
      rcases List.mem_append.mp hmem with h | h
      · exact (hk '.' h).1 rfl
      · exact no_dot_idxRunChars run h
    cases seg with
    | key k =>
      rw [show renderTail (Seg.key k :: r) = '.' :: (k.data ++ renderTail r) from rfl]
      unfold jsonPathStructureChars
      rw [splitOnDot_append _ _ hnodot]
      simp only [List.flatMap_cons]
      rw [elementParse_piece k0 run hk]
      have hkd : ∀ c ∈ k.data, c ≠ '.' ∧ c ≠ '[' := hwseg
      have := ih hwr k.data [] hkd
      unfold jsonPathStructureChars at this
      rw [show idxRunChars [] = [] from rfl, List.append_nil] at this
      simp only [List.map_nil, List.nil_append] at this
      rw [this]
      simp
    | idx i =>
      have hregroup :
          (k0 ++ idxRunChars run) ++ renderTail (Seg.idx i :: r)
            = (k0 ++ idxRunChars (run ++ [i])) ++ renderTail r := by
        rw [idxRunChars_append]
        rw [show renderTail (Seg.idx i :: r)
              = '[' :: (intChars i ++ ']' :: renderTail r) from rfl]
        simp [idxRunChars]
      rw [hregroup]
      rw [ih hwr k0 (run ++ [i]) hk]
      simp
    | slc a b c => exact absurd hwseg (by simp [wfSeg])

theorem jsonPathStructureChars_render (k0 : String) (t : List Seg)
    (hk : wfKeyStr k0) (ht : wfTail t) :
    jsonPathStructureChars (k0.data ++ renderTail t) = Seg.key k0 :: t := by
  have := parse_render_aux t ht k0.data [] hk
  rw [show idxRunChars [] = [] from rfl, List.append_nil] at this
  simp only [List.map_nil, List.nil_append] at this
  rw [this]

theorem fromStructure_wf (k0 : String) (t : List Seg)
    (hk : wfKeyStr k0) (ht : wfTail t) :
    fromStructure (Seg.key k0 :: t)
      = .ok ⟨String.mk (k0.data ++ renderTail t), Seg.key k0 :: t⟩ := by
  unfold fromStructure stringRepresentationState JSONPath.ofString
  simp only
  rw [jsonPathStructureChars_render k0 t hk ht]

theorem ofString_wf_key (k0 : String) (hk : wfKeyStr k0) :
    JSONPath.ofString k0 = ⟨k0, [Seg.key k0]⟩ := by
  have h := jsonPathStructureChars_render k0 [] hk (fun s hs => absurd hs (List.not_mem_nil s))
  rw [show renderTail [] = [] from rfl, List.append_nil] at h
  unfold JSONPath.ofString
  rw [h]

theorem split_wf (p : JSONPath) (k : Int)
    (hw : wfChain p.json_path_structure)
    (h1 : 1 ≤ k.natAbs) (h2 : k.natAbs ≤ p.json_path_structure.length)
    (h3 : 0 ≤ k ∨ k.natAbs < p.json_path_structure.length
          ∨ p.json_path_structure.length = 1) :
    ∃ a r, p.split k = .ok (a, r) ∧
      a.json_path_structure
        = p.json_path_structure.take (splitNat k p.json_path_structure.length) ∧
      r.json_path_structure
        = Seg.key "@" :: p.json_path_structure.drop (splitNat k p.json_path_structure.length) ∧
      ∃ cs, r.raw_json_path = String.mk ('@' :: cs) := by
  obtain ⟨k0, t, hs, hk0, htl⟩ :
      ∃ k0 t, p.json_path_structure = Seg.key k0 :: t ∧ wfKeyStr k0 ∧ wfTail t := by
    cases hps : p.json_path_structure with
    | nil => rw [hps] at hw; exact absurd hw (fun h => h)
    | cons s0 t =>
      cases s0 with
      | key k0 =>
        rw [hps] at hw
        exact ⟨k0, t, rfl, hw.1, hw.2⟩
      | idx i => rw [hps] at hw; exact absurd hw (fun h => h)
      | slc a b c => rw [hps] at hw; exact absurd hw (fun h => h)
  unfold JSONPath.split
  rw [if_neg (not_not_intro ⟨h1, h2⟩)]
  by_cases hlen : p.json_path_structure.length = 1
  · rw [if_pos hlen]
    have ht0 : t = [] := by
      rw [hs] at hlen
      simpa using hlen
    subst ht0
    rw [hs]
    refine ⟨JSONPath.ofString k0, JSONPath.ofString "@", rfl, ?_, ?_, ?_⟩
    · rw [ofString_wf_key k0 hk0]
      simp [splitNat]
    · simp only [splitNat, List.length_singleton, if_pos rfl]
      rfl
    · exact ⟨[], rfl⟩
  · rw [if_neg hlen]
    have hlen2 : 2 ≤ p.json_path_structure.length := by
      have : 1 ≤ p.json_path_structure.length := le_trans h1 h2
      omega
    set m := splitNat k p.json_path_structure.length with hm
    have hmval : m = if 0 ≤ k then k.toNat else p.json_path_structure.length - k.natAbs := by
      rw [hm, splitNat, if_neg hlen]
    have hm1 : 1 ≤ m := by
      rw [hmval]
      by_cases hk' : 0 ≤ k
      · rw [if_pos hk']
        omega
      · rw [if_neg hk']
        rcases h3 with h3 | h3 | h3
        · exact absurd h3 hk'
        · omega
        · exact absurd h3 hlen
    have hmle : m ≤ p.json_path_structure.length := by
      rw [hmval]
      by_cases hk' : 0 ≤ k
      · rw [if_pos hk']
        omega
      · rw [if_neg hk']
        omega
    have htake : pyTakeInt k p.json_path_structure = p.json_path_structure.take m := by
      unfold pyTakeInt
      rw [hmval]
      by_cases hk' : 0 ≤ k
      · rw [if_pos hk', if_pos hk']
      · rw [if_neg hk', if_neg hk']
    have hdrop : pyDropInt k p.json_path_structure = p.json_path_structure.drop m := by
      unfold pyDropInt
      rw [hmval]
      by_cases hk' : 0 ≤ k
      · rw [if_pos hk', if_pos hk']
      · rw [if_neg hk', if_neg hk']
    obtain ⟨m', hm'⟩ : ∃ m', m = m' + 1 := ⟨m - 1, by omega⟩
    have htakes : p.json_path_structure.take m = Seg.key k0 :: t.take m' := by
      rw [hs, hm', List.take_succ_cons]
    have hdrops : p.json_path_structure.drop m = t.drop m' := by
      rw [hs, hm', List.drop_succ_cons]
    have hwt_take : wfTail (t.take m') := fun s hsm => htl s (List.mem_of_mem_take hsm)
    have hwt_drop : wfTail (t.drop m') := fun s hsm => htl s (List.drop_subset m' t hsm)
    rw [htake, hdrop, htakes, hdrops]
    rw [fromStructure_wf k0 (t.take m') hk0 hwt_take]
    rw [fromStructure_wf "@" (t.drop m') (by decide) hwt_drop]
    refine ⟨_, _, rfl, ?_, ?_, ?_⟩
    · rfl
    · rfl
    · exact ⟨renderTail (t.drop m'), rfl⟩

theorem append_of_at_raw (a r : JSONPath) (cs : List Char)
    (hraw : r.raw_json_path = String.mk ('@' :: cs)) :
    a.append r = .ok ⟨a.raw_json_path ++ String.mk cs,
                      a.json_path_structure ++ r.json_path_structure.drop 1⟩ := by
  unfold JSONPath.append
  rw [hraw]
  show (if '@' = '@' then _ else _) = _
  rw [if_pos rfl]

/-- C5: for every slice-free well-formed path and every valid split position
whose absolute value is between 1 and the number of segments — excluding the
position that would leave an empty prefix, where `split` itself raises —
appending the relative part produced by `split` onto the absolute part
reassembles a path equal (in the sense of `__eq__`, which compares
`json_path_structure`) to the original. -/
theorem split_append_reassembles (p : JSONPath) (k : Int)
    (hw : wfChain p.json_path_structure)
    (h1 : 1 ≤ k.natAbs) (h2 : k.natAbs ≤ p.json_path_structure.length)
    (h3 : 0 ≤ k ∨ k.natAbs < p.json_path_structure.length
          ∨ p.json_path_structure.length = 1) :
    ∃ a r q, p.split k = .ok (a, r) ∧ a.append r = .ok q ∧
      q.json_path_structure = p.json_path_structure := by
  obtain ⟨a, r, hsplit, ha, hr, cs, hraw⟩ := split_wf p k hw h1 h2 h3
  refine ⟨a, r, _, hsplit, append_of_at_raw a r cs hraw, ?_⟩
  show a.json_path_structure ++ r.json_path_structure.drop 1 = p.json_path_structure
  rw [ha, hr]
  simp [List.take_append_drop]

/-- Witness for C5 at the concrete path `$.a.b` split at position 2. -/
theorem split_append_reassembles_witness :
    ∃ a r q, (JSONPath.ofString "$.a.b").split 2 = .ok (a, r) ∧ a.append r = .ok q ∧
      q.json_path_structure = (JSONPath.ofString "$.a.b").json_path_structure :=
  split_append_reassembles (JSONPath.ofString "$.a.b") 2 (by decide) (by decide)
    (by decide) (by decide)

/-- C5 counterexample: the path `$.a[0:5]` holds the slice `slice(0, 5, None)`,
whose rendering drops the zero start (`[:5]`); splitting at 2 and appending
reassembles a path whose slice has an open start, so the result is not equal
to the original path. -/
theorem split_append_counterexample :
    ∃ a r q, (JSONPath.ofString "$.a[0:5]").split 2 = .ok (a, r) ∧ a.append r = .ok q ∧
      q.json_path_structure = [Seg.key "$", Seg.key "a", Seg.slc none (some 5) none] ∧
      (JSONPath.ofString "$.a[0:5]").json_path_structure
        = [Seg.key "$", Seg.key "a", Seg.slc (some 0) (some 5) none] ∧
      q.json_path_structure ≠ (JSONPath.ofString "$.a[0:5]").json_path_structure := by
  refine ⟨_, _, _, rfl, rfl, rfl, rfl, by decide⟩

theorem drop_cons_facts (s : List Seg) (pos : Nat) (seg : Seg) (rest : List Seg)
    (h : s.drop pos = seg :: rest) :
    s.get? pos = some seg ∧ s.drop (pos + 1) = rest ∧ pos < s.length ∧
    s.take (pos + 1) = s.take pos ++ [seg] := by
  have hlt : pos < s.length := by
    by_contra hge
    push_neg at hge
    rw [List.drop_eq_nil_of_le hge] at h
    exact absurd h (by simp)
  have hget : s.get? pos = some seg := by
    have h0 : (s.drop pos).get? 0 = s.get? (pos + 0) := List.get?_drop s pos 0
    rw [h] at h0
    simpa using h0.symm
  refine ⟨hget, ?_, hlt, ?_⟩
  · have hdd : s.drop (pos + 1) = (s.drop pos).drop 1 := by
      rw [List.drop_drop]
    rw [hdd, h]
    rfl
  · have hget2 : s[pos]? = some seg := by
      rw [← List.get?_eq_getElem?]
      exact hget
    rw [List.take_succ, hget2]
    rfl

theorem getGo_append_ok (p : JSONPath) :
    ∀ (xs ys : List Seg) (n : Nat) (cur v : PyVal),
    getGo p xs n cur = .ok v →
    getGo p (xs ++ ys) n cur = getGo p ys (n + xs.length) v := by
  intro xs
  induction xs with
  | nil =>
    intro ys n cur v h
    simp only [getGo] at h
    cases h
    simp
  | cons seg xs ih =>
    intro ys n cur v h
    simp only [getGo, List.cons_append] at h ⊢
    have harith : n + 1 + xs.length = n + (xs.length + 1) := by omega
    by_cases hskip : seg = Seg.key "$" ∨ seg = Seg.key "@"
    · rw [if_pos hskip] at h ⊢
      have := ih ys (n + 1) cur v h
      rw [harith] at this
      simpa using this
    · rw [if_neg hskip] at h ⊢
      cases hsub : pySubscript cur seg with
      | ok w =>
        rw [hsub] at h
        have := ih ys (n + 1) w v h
        rw [harith] at this
        simpa using this
      | error kind =>
        rw [hsub] at h
        exact absurd h (by simp)

theorem pySubscript_valueK (cur : PyVal) (seg : Seg)
    (he : pySubscript cur seg = .error .valueK) :
    ∃ a b c, seg = Seg.slc a b c := by
  cases seg with
  | slc a b c => exact ⟨a, b, c, rfl⟩
  | key k =>
    exfalso
    cases cur <;> simp only [pySubscript] at he <;> (try split at he) <;> simp_all
  | idx i =>
    exfalso
    cases cur <;> simp only [pySubscript] at he <;> (try split at he) <;> simp_all

theorem wfChain_all (s : List Seg) (hw : wfChain s) : ∀ x ∈ s, wfSeg x := by
  cases s with
  | nil => exact absurd hw (fun h => h)
  | cons s0 t =>
    cases s0 with
    | key k0 =>
      intro x hx
      rcases List.mem_cons.mp hx with hx | hx
      · subst hx
        exact hw.1
      · exact hw.2 x hx
    | idx i => exact absurd hw (fun h => h)
    | slc a b c => exact absurd hw (fun h => h)

theorem splitNat_ofNat_succ (pos len : Nat) (hlt : pos < len) :
    splitNat (Int.ofNat (pos + 1)) len = pos + 1 := by
  unfold splitNat
  by_cases hlen : len = 1
  · rw [if_pos hlen]
    omega
  · rw [if_neg hlen,
        if_pos (by rw [Int.ofNat_eq_natCast]; omega : (0 : Int) ≤ Int.ofNat (pos + 1))]
    simp

theorem getGo_error_spec (p : JSONPath) (j : PyVal)
    (hw : wfChain p.json_path_structure) :
    ∀ (segs : List Seg) (pos : Nat) (cur : PyVal) (e : GetErr),
    segs = p.json_path_structure.drop pos →
    getGo p (p.json_path_structure.take pos) 0 j = .ok cur →
    getGo p segs pos cur = .error e →
    ∃ k seg v kind sub rel,
      p.json_path_structure.get? k = some seg ∧
      getGo p (p.json_path_structure.take k) 0 j = .ok v ∧
      pySubscript v seg = .error kind ∧
      p.split (Int.ofNat (k + 1)) = .ok (sub, rel) ∧
      sub.json_path_structure = p.json_path_structure.take (k + 1) ∧
      ((kind = SubKind.keyK ∧ e = .keyNotFound sub) ∨
       (kind = SubKind.typeK ∧ e = .notSubscriptable sub) ∨
       (kind = SubKind.indexK ∧ e = .indexOutOfRange sub)) := by
  intro segs
  induction segs with
  | nil =>
    intro pos cur e _ _ he
    simp [getGo] at he
  | cons seg rest ih =>
    intro pos cur e hdrop hpre he
    obtain ⟨hget, hdrop1, hlt, htake1⟩ := drop_cons_facts _ pos seg rest hdrop.symm
    have hlentake : (p.json_path_structure.take pos).length = pos := by
      rw [List.length_take]
      omega
    simp only [getGo] at he
    by_cases hskip : seg = Seg.key "$" ∨ seg = Seg.key "@"
    · rw [if_pos hskip] at he
      have hpre1 : getGo p (p.json_path_structure.take (pos + 1)) 0 j = .ok cur := by
        rw [htake1, getGo_append_ok p _ _ 0 j cur hpre, hlentake]
        simp only [getGo, Nat.zero_add]
        rw [if_pos hskip]
      exact ih (pos + 1) cur e hdrop1.symm hpre1 he
    · rw [if_neg hskip] at he
      cases hsub : pySubscript cur seg with
      | ok v =>
        rw [hsub] at he
        have hpre1 : getGo p (p.json_path_structure.take (pos + 1)) 0 j = .ok v := by
          rw [htake1, getGo_append_ok p _ _ 0 j cur hpre, hlentake]
          simp only [getGo, Nat.zero_add]
          rw [if_neg hskip, hsub]
        exact ih (pos + 1) v e hdrop1.symm hpre1 he
      | error kind =>
        rw [hsub] at he
        have hee : e = attachGetErr p kind (pos + 1) := by
          simpa using he.symm
        have hknv : kind ≠ SubKind.valueK := by
          intro hkv
          subst hkv
          obtain ⟨a, b, c, hslc⟩ := pySubscript_valueK cur seg hsub
          have hmem : seg ∈ p.json_path_structure := List.get?_mem hget
          have := wfChain_all _ hw seg hmem
          rw [hslc] at this
          exact this
        obtain ⟨sub, rel, hsp, hsubst, _, _⟩ :=
          split_wf p (Int.ofNat (pos + 1)) hw
            (by rw [Int.ofNat_eq_natCast, Int.natAbs_cast]; omega)
            (by rw [Int.ofNat_eq_natCast, Int.natAbs_cast]; omega)
            (Or.inl (by rw [Int.ofNat_eq_natCast]; omega))
        have hsubst' : sub.json_path_structure = p.json_path_structure.take (pos + 1) := by
          rw [hsubst, splitNat_ofNat_succ pos _ hlt]
        refine ⟨pos, seg, cur, kind, sub, rel, hget, hpre, hsub, hsp, hsubst', ?_⟩
        rw [hee]
        unfold attachGetErr
        cases kind with
        | valueK => exact absurd rfl hknv
        | keyK =>
          rw [hsp]
          left
          exact ⟨rfl, rfl⟩
        | typeK =>
          rw [hsp]
          right; left
          exact ⟨rfl, rfl⟩
        | indexK =>
          rw [hsp]
          right; right
          exact ⟨rfl, rfl⟩

/-- C8: on a well-formed slice-free path, whenever `get_item_from_json_path`
fails it reports the failure through one of three distinguished errors — a
missing key in a dict, an attempt to subscript a value that is neither dict
nor list, or an out-of-range array index — and the error carries exactly the
sub-path from the anchor up to and including the first failing segment (the
walk of the shorter prefix succeeds and the failing segment faults on the
reached value).  When the failure is at the last segment this sub-path equals
the whole path, which corrects the spec sentence saying the full path is
never carried. -/
theorem get_item_error_reports_failing_subpath (p : JSONPath) (j : PyVal) (e : GetErr)
    (hw : wfChain p.json_path_structure)
    (he : getItemFromJsonPath p j = .error e) :
    ∃ k seg v kind sub rel,
      p.json_path_structure.get? k = some seg ∧
      getGo p (p.json_path_structure.take k) 0 j = .ok v ∧
      pySubscript v seg = .error kind ∧
      p.split (Int.ofNat (k + 1)) = .ok (sub, rel) ∧
      sub.json_path_structure = p.json_path_structure.take (k + 1) ∧
      ((kind = SubKind.keyK ∧ e = .keyNotFound sub) ∨
       (kind = SubKind.typeK ∧ e = .notSubscriptable sub) ∨
       (kind = SubKind.indexK ∧ e = .indexOutOfRange sub)) :=
  getGo_error_spec p j hw p.json_path_structure 0 j e rfl rfl he

/-- Witness for C8: reading `$.a.b` in the tree with an empty object at key
`a` fails at the last segment with a KeyError carrying `$.a.b`. -/
theorem get_item_error_reports_failing_subpath_witness :
    ∃ k seg v kind sub rel,
      (JSONPath.ofString "$.a.b").json_path_structure.get? k = some seg ∧
      getGo (JSONPath.ofString "$.a.b")
        ((JSONPath.ofString "$.a.b").json_path_structure.take k) 0
        (.dict [("a", .dict [])]) = .ok v ∧
      pySubscript v seg = .error kind ∧
      (JSONPath.ofString "$.a.b").split (Int.ofNat (k + 1)) = .ok (sub, rel) ∧
      sub.json_path_structure = (JSONPath.ofString "$.a.b").json_path_structure.take (k + 1) ∧
      ((kind = SubKind.keyK ∧
          GetErr.keyNotFound (JSONPath.ofString "$.a.b") = .keyNotFound sub) ∨
       (kind = SubKind.typeK ∧
          GetErr.keyNotFound (JSONPath.ofString "$.a.b") = .notSubscriptable sub) ∨
       (kind = SubKind.indexK ∧
          GetErr.keyNotFound (JSONPath.ofString "$.a.b") = .indexOutOfRange sub)) :=
  get_item_error_reports_failing_subpath (JSONPath.ofString "$.a.b")
    (.dict [("a", .dict [])]) (.keyNotFound (JSONPath.ofString "$.a.b"))
    (by decide) (by rfl)

/-- C8 counterexample to the parenthetical never-the-full-path reading:
reading `$.a` in an empty object fails at the last segment and the KeyError
carries the sub-path `$.a`, which is the full path. -/
theorem get_item_error_full_path :
    getItemFromJsonPath (JSONPath.ofString "$.a") (.dict [])
      = .error (.keyNotFound (JSONPath.ofString "$.a")) := by rfl

theorem writeItemInPath_succ_none (fuel : Nat) (item : PyVal) (inPath : JSONPath) :
    writeItemInPath (fuel + 1) item inPath none =
      (if inPath.json_path_structure.length = 1 then some (.ok item)
       else writeItemCore (writeItemInPath fuel) item inPath
         (match inPath.json_path_structure.get? 1 with
          | some (Seg.idx _) => PyVal.list []
          | _ => PyVal.dict [])) := rfl

theorem writeItemInPath_succ_some (fuel : Nat) (item : PyVal) (inPath : JSONPath)
    (j : PyVal) :
    writeItemInPath (fuel + 1) item inPath (some j)
      = writeItemCore (writeItemInPath fuel) item inPath j := rfl

theorem getItem_anchor_only (a : JSONPath) (j : PyVal)
    (ha : a.json_path_structure = [Seg.key "$"]) :
    getItemFromJsonPath a j = .ok j := by
  unfold getItemFromJsonPath
  rw [ha]
  simp [getGo]

theorem wfChain_take (s : List Seg) (hw : wfChain s) (m : Nat) (hm : 1 ≤ m) :
    wfChain (s.take m) := by
  cases s with
  | nil => exact absurd hw (fun h => h)
  | cons s0 t =>
    cases s0 with
    | key k0 =>
      obtain ⟨m', rfl⟩ : ∃ m', m = m' + 1 := ⟨m - 1, by omega⟩
      rw [List.take_succ_cons]
      exact ⟨hw.1, fun x hx => hw.2 x (List.mem_of_mem_take hx)⟩
    | idx i => exact absurd hw (fun h => h)
    | slc a b c => exact absurd hw (fun h => h)

theorem writeCore_depth1
    (recur : PyVal → JSONPath → Option PyVal → Option (Except PyExc PyVal))
    (q : JSONPath) (kk : String) (item : PyVal) (d0 : List (String × PyVal))
    (hq : q.json_path_structure = [Seg.key "$", Seg.key kk])
    (hk : wfKeyStr kk) :
    writeItemCore recur item q (.dict d0)
      = some (.ok (.dict (dictUpdate d0 kk item))) := by
  have hw : wfChain q.json_path_structure := by
    rw [hq]
    exact ⟨by decide, fun s hs => by
      rcases List.mem_singleton.mp hs with rfl
      exact hk⟩
  have hlen2 : q.json_path_structure.length = 2 := by
    rw [hq]
    rfl
  obtain ⟨a, r, hsp, ha, hr, _, _⟩ :=
    split_wf q (-1) hw (by decide) (by rw [hlen2]; decide)
      (Or.inr (Or.inl (by rw [hlen2]; decide)))
  have hmq : splitNat (-1) q.json_path_structure.length = 1 := by
    rw [hlen2]
    decide
  have ha1 : a.json_path_structure = [Seg.key "$"] := by
    rw [ha, hmq, hq]
    rfl
  have hgeta : getItemFromJsonPath a (PyVal.dict d0) = .ok (.dict d0) :=
    getItem_anchor_only a _ ha1
  have hlast : q.json_path_structure.getLast? = some (Seg.key kk) := by
    rw [hq]
    rfl
  have hdict : writeItemInDict item q (PyVal.dict d0)
      = .ok (.dict (dictUpdate d0 kk item)) := by
    unfold writeItemInDict
    simp only [hlast, hsp, hgeta, ha1]
    rfl
  have hatt : writeAttempt item q a (PyVal.dict d0)
      = .ok (.dict (dictUpdate d0 kk item)) := by
    unfold writeAttempt
    simp only [hgeta, hdict]
  unfold writeItemCore
  simp only [hsp, hatt]

theorem getGo_nest (p : JSONPath) :
    ∀ (ks : List String) (pos : Nat) (v : PyVal),
    (∀ k ∈ ks, k ≠ "$" ∧ k ≠ "@") →
    getGo p (ks.map Seg.key) pos ((ks.map Seg.key).foldr wrapSeg v) = .ok v := by
  intro ks
  induction ks with
  | nil =>
    intro pos v _
    simp [getGo]
  | cons k t ih =>
    intro pos v hks
    have hk := hks k (by simp)
    have hnotskip : ¬(Seg.key k = Seg.key "$" ∨ Seg.key k = Seg.key "@") := by
      rintro (h | h)
      · exact hk.1 (Seg.key.inj h)
      · exact hk.2 (Seg.key.inj h)
    simp only [List.map_cons, List.foldr_cons, getGo]
    rw [if_neg hnotskip]
    have hsub : pySubscript (wrapSeg (Seg.key k) ((t.map Seg.key).foldr wrapSeg v))
        (Seg.key k) = .ok ((t.map Seg.key).foldr wrapSeg v) := by
      show pySubscript (PyVal.dict [(k, (t.map Seg.key).foldr wrapSeg v)]) (Seg.key k) = _
      simp [pySubscript, dictLookup]
    rw [hsub]
    exact ih (pos + 1) v (fun k2 hk2 => hks k2 (by simp [hk2]))

theorem getGo_skip_anchor (p : JSONPath) (X : List Seg) (n : Nat) (val : PyVal) :
    getGo p (Seg.key "$" :: X) n val = getGo p X (n + 1) val := by
  simp [getGo]

/-- C2 (amended): with no starting tree (`None`) and a path whose non-anchor
segments are all plain string keys — free of dots and brackets and distinct
from the anchor strings — reading back after a write returns the written
value.  The original unrestricted claim fails: see the counterexample at the
bare anchor path with an existing tree, and index-bearing paths auto-create a
single-element array that makes the read fail. -/
theorem write_then_get_returns_value (p : JSONPath) (ks : List String) (v : PyVal)
    (hp : p.json_path_structure = Seg.key "$" :: ks.map Seg.key)
    (hks : ∀ k ∈ ks, wfKeyStr k ∧ k ≠ "$" ∧ k ≠ "@") :
    ∃ d, writeItemInPath 3 v p none = some (.ok d) ∧
         getItemFromJsonPath p d = .ok v := by
  have hw : wfChain p.json_path_structure := by
    rw [hp]
    refine ⟨by decide, fun s hs => ?_⟩
    obtain ⟨k, hkmem, rfl⟩ := List.mem_map.mp hs
    exact (hks k hkmem).1
  cases ks with
  | nil =>
    refine ⟨v, ?_, ?_⟩
    · rw [show (3 : Nat) = 2 + 1 from rfl, writeItemInPath_succ_none]
      rw [if_pos (by rw [hp]; rfl)]
    · unfold getItemFromJsonPath
      rw [hp]
      simp [getGo]
  | cons k1 ks2 =>
    have hk1 := hks k1 (by simp)
    have hnot1 : ¬(Seg.key k1 = Seg.key "$" ∨ Seg.key k1 = Seg.key "@") := by
      rintro (h | h)
      · exact hk1.2.1 (Seg.key.inj h)
      · exact hk1.2.2 (Seg.key.inj h)
    cases ks2 with
    | nil =>
      refine ⟨.dict [(k1, v)], ?_, ?_⟩
      · rw [show (3 : Nat) = 2 + 1 from rfl, writeItemInPath_succ_none]
        rw [if_neg (by rw [hp]; simp)]
        have hinit : (match p.json_path_structure.get? 1 with
            | some (Seg.idx _) => PyVal.list []
            | _ => PyVal.dict []) = PyVal.dict [] := by
          rw [hp]
          rfl
        rw [hinit]
        rw [writeCore_depth1 _ p k1 v [] (by rw [hp]; rfl) hk1.1]
        rfl
      · unfold getItemFromJsonPath
        rw [hp]
        rw [show List.map Seg.key [k1] = [Seg.key k1] from rfl, getGo_skip_anchor]
        exact getGo_nest p [k1] 1 v (fun k hk => by
          rcases List.mem_singleton.mp hk with rfl
          exact hk1.2)
    | cons k2 rest =>
      set T := Seg.key k2 :: rest.map Seg.key with hT
      have hpT : p.json_path_structure = Seg.key "$" :: Seg.key k1 :: T := by
        rw [hp, hT]
        rfl
      have hTlen : T.length = rest.length + 1 := by
        rw [hT]
        simp
      have hplen : p.json_path_structure.length = rest.length + 3 := by
        rw [hpT]
        simp only [List.length_cons, hTlen]
      obtain ⟨a, r1, hsp1, ha, _, _, _⟩ :=
        split_wf p (-1) hw (by decide)
          (by rw [show ((-1 : Int)).natAbs = 1 from rfl, hplen]; omega)
          (Or.inr (Or.inl (by rw [show ((-1 : Int)).natAbs = 1 from rfl, hplen]; omega)))
      have hm1 : splitNat (-1) p.json_path_structure.length = rest.length + 2 := by
        unfold splitNat
        rw [hplen]
        rw [if_neg (by omega), if_neg (by norm_num)]
        rw [show ((-1 : Int)).natAbs = 1 from rfl]
        omega
      obtain ⟨T2, haS⟩ : ∃ T2, a.json_path_structure = Seg.key "$" :: Seg.key k1 :: T2 := by
        rw [ha, hm1, hpT]
        refine ⟨T.take (rest.length), ?_⟩
        rw [show rest.length + 2 = rest.length + 1 + 1 from rfl]
        rw [List.take_succ_cons, List.take_succ_cons]
      have hwa : wfChain a.json_path_structure := by
        rw [ha]
        exact wfChain_take _ hw _ (by rw [hm1]; omega)
      obtain ⟨sub, rel2, hspA, hsubA, _, _⟩ :=
        split_wf a 2 hwa (by decide)
          (by rw [show ((2 : Int)).natAbs = 2 from rfl, haS]; simp)
          (Or.inl (by norm_num))
      have hsubL : sub.json_path_structure = [Seg.key "$", Seg.key k1] := by
        rw [hsubA, haS]
        have hsn : splitNat 2 (Seg.key "$" :: Seg.key k1 :: T2).length = 2 := by
          unfold splitNat
          rw [if_neg (by simp), if_pos (by norm_num)]
          rfl
        rw [hsn]
        rfl
      have hgetA : getItemFromJsonPath a (PyVal.dict []) = .error (.keyNotFound sub) := by
        have hke : pySubscript (PyVal.dict []) (Seg.key k1) = Except.error SubKind.keyK := rfl
        unfold getItemFromJsonPath
        rw [haS]
        simp [getGo, hk1.2.1, hk1.2.2, hke, attachGetErr]
        rw [hspA]
      have hattA : writeAttempt v p a (PyVal.dict []) = .error (.keyErrP sub) := by
        unfold writeAttempt
        rw [hgetA]
        rfl
      have hsubLen : sub.json_path_structure.length = 2 := by
        rw [hsubL]
        rfl
      obtain ⟨a2, missingPath, hspM, _, hrM, _⟩ :=
        split_wf p (Int.ofNat 2) hw (by decide)
          (by rw [show (Int.ofNat 2).natAbs = 2 from rfl, hplen]; omega)
          (Or.inl (by rw [Int.ofNat_eq_natCast]; omega))
      have hmM : splitNat (Int.ofNat 2) p.json_path_structure.length = 2 := by
        unfold splitNat
        rw [hplen]
        rw [if_neg (by omega), if_pos (by rw [Int.ofNat_eq_natCast]; omega)]
        rfl
      have hrM2 : missingPath.json_path_structure = Seg.key "@" :: T := by
        rw [hrM, hmM, hpT]
        rfl
      have hbuild : buildMissingItem v missingPath = T.foldr wrapSeg v := by
        unfold buildMissingItem
        rw [hrM2]
        rfl
      refine ⟨((k1 :: k2 :: rest).map Seg.key).foldr wrapSeg v, ?_, ?_⟩
      · rw [show (3 : Nat) = 2 + 1 from rfl, writeItemInPath_succ_none]
        rw [if_neg (by rw [hplen]; omega)]
        have hinit : (match p.json_path_structure.get? 1 with
            | some (Seg.idx _) => PyVal.list []
            | _ => PyVal.dict []) = PyVal.dict [] := by
          rw [hpT]
          rfl
        rw [hinit]
        unfold writeItemCore
        simp only [hsp1, hattA, isCaughtExc, excArgPath, hsubLen, hspM, hbuild, if_true]
        rw [show (2 : Nat) = 1 + 1 from rfl, writeItemInPath_succ_some]
        rw [writeCore_depth1 _ sub k1 _ [] hsubL hk1.1]
        rfl
      · unfold getItemFromJsonPath
        rw [hp]
        rw [getGo_skip_anchor]
        exact getGo_nest p (k1 :: k2 :: rest) 1 v
          (fun k hk => (hks k hk).2)

/-- Witness for C2 at the concrete path `$.a.b` and value 7. -/
theorem write_then_get_returns_value_witness :
    ∃ d, writeItemInPath 3 (.int 7) (JSONPath.ofString "$.a.b") none = some (.ok d) ∧
         getItemFromJsonPath (JSONPath.ofString "$.a.b") d = .ok (.int 7) :=
  write_then_get_returns_value (JSONPath.ofString "$.a.b") ["a", "b"] (.int 7)
    (by rfl) (by decide)

/-- C2 counterexample: writing at the bare anchor path `$` into an existing
empty dict stores the item under the literal key `$` (the anchor is skipped
on reads but not on writes), so reading `$` back returns the whole dict, not
the written item. -/
theorem write_then_get_counterexample :
    writeItemInPath 3 (.str "x") (JSONPath.ofString "$") (some (.dict []))
      = some (.ok (.dict [("$", .str "x")])) ∧
    getItemFromJsonPath (JSONPath.ofString "$") (.dict [("$", .str "x")])
      = .ok (.dict [("$", .str "x")]) ∧
    PyVal.dict [("$", PyVal.str "x")] ≠ PyVal.str "x" :=
  ⟨rfl, rfl, fun h => PyVal.noConfusion h⟩

/-- C3 counterexample: writing `x` at `$.a.b[1]` into no tree does not place
`x` at position 1 — the auto-created array holds `x` as its only element, and
reading `$.a.b[1]` back fails with an out-of-range IndexError. -/
theorem write_index_vivify_counterexample :
    writeItemInPath 3 (.str "x") (JSONPath.ofString "$.a.b[1]") none
      = some (.ok (.dict [("a", .dict [("b", .list [.str "x"])])])) ∧
    getItemFromJsonPath (JSONPath.ofString "$.a.b[1]")
      (.dict [("a", .dict [("b", .list [.str "x"])])])
      = .error (.indexOutOfRange (JSONPath.ofString "$.a.b[1]")) :=
  ⟨rfl, rfl⟩

/-- C3 (amended): `write_item_in_path("x", "$.a.b[1]", None)` returns the
structure `a -> b -> ["x"]`: `b` is auto-created as an array because the
segment after `b` is an Index, but the index value is ignored by
`_write_item_in_path`, so `x` is the single element at position 0. -/
theorem write_index_vivify_amended :
    writeItemInPath 3 (.str "x") (JSONPath.ofString "$.a.b[1]") none
      = some (.ok (.dict [("a", .dict [("b", .list [.str "x"])])])) ∧
    getItemFromJsonPath (JSONPath.ofString "$.a.b[0]")
      (.dict [("a", .dict [("b", .list [.str "x"])])]) = .ok (.str "x") :=
  ⟨rfl, rfl⟩

/-- C4: `write_item_in_path` mutates the tree it is given: in the
state-passing reading, calling it with the empty dict as the tree leaves the
caller's object holding the written entry, contradicting both the claim and
the docstring promise of returning a copy. -/
theorem write_item_in_path_mutates_input :
    writeItemInPathFinalState 4 (.str "x") (JSONPath.ofString "$.a") (.dict [])
      = some (.ok (.dict [("a", .str "x")])) ∧
    dictKeys (.dict [("a", .str "x")]) = ["a"] ∧
    dictKeys (.dict []) = ([] : List String) ∧
    dictKeys (PyVal.dict [("a", .str "x")]) ≠ dictKeys (PyVal.dict []) :=
  ⟨rfl, rfl, rfl, by decide⟩

/-- C9: the auto-vivification recursion of `write_item_in_path` does not
always shorten the path: with the single-segment path `$` and a scalar tree,
the handler recurses with exactly the same arguments, so the function
diverges — it returns nothing for any amount of fuel. -/
theorem write_item_in_path_diverges :
    ∀ fuel : Nat,
      writeItemInPath fuel (.str "y") (JSONPath.ofString "$") (some (.int 5)) = none := by
  intro fuel
  induction fuel with
  | zero => rfl
  | succ n ih =>
    rw [writeItemInPath_succ_some]
    rw [show writeItemCore (writeItemInPath n) (.str "y") (JSONPath.ofString "$") (.int 5)
          = writeItemInPath n (.str "y") (JSONPath.ofString "$") (some (.int 5)) from rfl]
    exact ih

/-- C1: the type-inference table of `infer_json_type`.  The source tests
`str_is_float` before `str_is_int`, and every integer literal is also
accepted by `float`, so the string `3` is classified NUMBER even though
`str_is_int` accepts it — the INTEGER branch for text is unreachable; the
other table rows hold as stated. -/
theorem infer_json_type_table :
    inferJsonType (.str "true") = .ok .BOOLEAN ∧
    strIsInt "3" = true ∧
    inferJsonType (.str "3") = .ok .NUMBER ∧
    inferJsonType (.str "-3.5") = .ok .NUMBER ∧
    inferJsonType (.str "inf") = .ok .STRING ∧
    inferJsonType (.float (mkRat 3 1)) = .ok .INTEGER ∧
    inferJsonType (.float (mkRat 7 2)) = .ok .NUMBER :=
  ⟨rfl, rfl, rfl, rfl, rfl, rfl, rfl⟩

theorem parseSlicesGo_nil (f : Nat) : parseSlicesGo f [] = [] := by
  cases f <;> rfl

theorem parseSlicesChars_single_index (i : Int) :
    parseSlicesChars ('[' :: (intChars i ++ [']'])) = [Seg.idx i] := by
  unfold parseSlicesChars
  obtain ⟨f, hf⟩ : ∃ f, ('[' :: (intChars i ++ [']'])).length = f + 1 :=
    ⟨(intChars i ++ [']']).length, by simp⟩
  rw [hf]
  show parseSlicesGo (f + 1) ('[' :: (intChars i ++ ']' :: [])) = _
  simp only [parseSlicesGo, parseOneSlice_bracket]
  rw [parseSlicesGo_nil]

/-- C6 counterexample: the bracket `[2:]` contains a colon but no stop value;
the pyparsing expression requires digits after the colon, so the whole
bracket fails to match and is silently dropped — it yields no Slice at all,
and `$.a[2:]` parses to the same structure as `$.a`. -/
theorem parse_open_stop_slice_counterexample :
    parseSlices "[2:]" = [] ∧
    (JSONPath.ofString "$.a[2:]").json_path_structure = [Seg.key "$", Seg.key "a"] :=
  ⟨rfl, rfl⟩

/-- C6 (amended): a bracket holding only a start value and no colon yields an
Index segment (for every integer); a bracket with a colon and an explicit
stop yields a Slice whose missing start is open-ended — `[:5]` means up to
but excluding index 5, as list subscription confirms — but a bracket with a
colon and no stop value, such as `[2:]`, fails to match and is silently
dropped instead of yielding an open-ended slice. -/
theorem bracket_index_and_slice_amended :
    (∀ i : Int, parseSlicesChars ('[' :: (intChars i ++ [']'])) = [Seg.idx i]) ∧
    parseSlices "[:5]" = [Seg.slc none (some 5) none] ∧
    pySubscript (.list [.int 0, .int 1, .int 2, .int 3, .int 4, .int 5])
      (Seg.slc none (some 5) none)
      = .ok (.list [.int 0, .int 1, .int 2, .int 3, .int 4]) ∧
    parseSlices "[2:7]" = [Seg.slc (some 2) (some 7) none] ∧
    parseSlices "[2:]" = [] :=
  ⟨fun i => parseSlicesChars_single_index i, rfl, rfl, rfl, rfl⟩

/-- C7 counterexample: the path text `$.a[x]` has non-numeric bracket
content, yet parsing succeeds — the malformed bracket is silently dropped
and the structure is the same as for `$.a`; no path-syntax error exists in
the code. -/
theorem parse_malformed_bracket_succeeds :
    (JSONPath.ofString "$.a[x]").json_path_structure = [Seg.key "$", Seg.key "a"] := rfl

/-- C7 (amended): malformed bracket content never makes parsing fail; the
parse is total and everything from the first malformed bracket expression
onward is silently discarded — an unmatched bracket `[0`, and even
well-formed brackets that follow a malformed one, contribute no segments. -/
theorem parse_malformed_bracket_amended :
    (JSONPath.ofString "$.a[0").json_path_structure = [Seg.key "$", Seg.key "a"] ∧
    (JSONPath.ofString "$.b[1][x][2]").json_path_structure
      = [Seg.key "$", Seg.key "b", Seg.idx 1] ∧
    (JSONPath.ofString "$.a[x]").json_path_structure = [Seg.key "$", Seg.key "a"] :=
  ⟨rfl, rfl, rfl⟩

/-- C10: `string_representation` pops the first element of the list it is
given, so after any call — including the calls made through
`from_json_path_structure` — the caller's list has lost its anchor element:
its final contents are the tail of the original list, one element shorter. -/
theorem string_representation_pops_anchor (l : List Seg) (h : l ≠ []) :
    (stringRepresentationState l).2 = l.drop 1 ∧
    (stringRepresentationState l).2.length + 1 = l.length := by
  cases l with
  | nil => exact absurd rfl h
  | cons s t =>
    cases s <;> exact ⟨rfl, by simp [stringRepresentationState]⟩

/-- Witness for C10 at the structure of the path `$.a`. -/
theorem string_representation_pops_anchor_witness :
    (stringRepresentationState [Seg.key "$", Seg.key "a"]).2
      = ([Seg.key "$", Seg.key "a"] : List Seg).drop 1 ∧
    (stringRepresentationState [Seg.key "$", Seg.key "a"]).2.length + 1
      = ([Seg.key "$", Seg.key "a"] : List Seg).length :=
  string_representation_pops_anchor [Seg.key "$", Seg.key "a"] (by decide)

/-- Witness for C6 at the concrete index 3. -/
theorem bracket_index_and_slice_amended_witness :
    parseSlicesChars ('[' :: (intChars 3 ++ [']'])) = [Seg.idx 3] :=
  bracket_index_and_slice_amended.1 3

/-- Witness for C9 at the concrete fuel 5. -/
theorem write_item_in_path_diverges_witness :
    writeItemInPath 5 (.str "y") (JSONPath.ofString "$") (some (.int 5)) = none :=
  write_item_in_path_diverges 5
